import Mathlib

/-!
Verification development for the vpath repository (src/index.ts).

The repository exports a single class Vpath that wraps a filesystem path
together with the metadata of the entry it denotes and offers navigation
operations (getParent, getChildren, getRoute) plus factories (create,
getRoot, getHome).  All I/O collaborators (fs.stat, fs.readdir, os.homedir,
process.platform, the wmic drive-enumeration command) are modelled as an
explicit environment record; the node `path` module collaborator
(normalize / dirname / basename / extname / resolve) is modelled as pure
functions over `List Char`, following node's documented algorithms for the
posix and win32 flavours.  Promises are modelled as `Option`: `none` is a
rejected promise.
-/

/-! ### The node `path` collaborator, posix flavour -/

def isSlash (c : Char) : Bool := c == '/'

/-- Split a character list at every character satisfying `p` (the separator
characters themselves are dropped, empty segments are kept, mirroring how
node's normalizeString walks the string). -/
def splitByPred (p : Char → Bool) : List Char → List (List Char)
  | [] => [[]]
  | c :: rest =>
    if p c then [] :: splitByPred p rest
    else
      match splitByPred p rest with
      | [] => [[c]]
      | seg :: segs => (c :: seg) :: segs

/-- One step of node's normalizeString segment processing, with the stack of
already-emitted segments kept in reverse order.  Empty and `.` segments are
skipped; `..` pops the previous segment unless it is itself `..`, and is kept
only when `allowAbove` (i.e. for relative paths). -/
def normStep (allowAbove : Bool) (stack : List (List Char)) (seg : List Char) :
    List (List Char) :=
  if seg == ([] : List Char) || seg == ['.'] then stack
  else if seg == ['.', '.'] then
    match stack with
    | top :: rest =>
      if top == ['.', '.'] then
        if allowAbove then seg :: top :: rest else top :: rest
      else rest
    | [] => if allowAbove then [seg] else []
  else seg :: stack

def normalizeStack (allowAbove : Bool) (segs : List (List Char)) :
    List (List Char) :=
  segs.foldl (normStep allowAbove) []

/-- Join segments with a separator character. -/
def joinSep (sep : Char) : List (List Char) → List Char
  | [] => []
  | [s] => s
  | s :: rest => s ++ sep :: joinSep sep rest

/-- Model of node's path.posix.normalize. -/
def posixNormalize (s : String) : String :=
  match s.data with
  | [] => "."
  | c0 :: rest =>
    let isAbs := c0 == '/'
    let trailing := (c0 :: rest).getLast? == some '/'
    let stack := (normalizeStack (!isAbs) (splitByPred isSlash (c0 :: rest))).reverse
    let core := joinSep '/' stack
    if core.isEmpty then
      String.mk (if isAbs then ['/'] else if trailing then ['.', '/'] else ['.'])
    else
      String.mk ((if isAbs then ['/'] else []) ++ core ++ (if trailing then ['/'] else []))

/-- Model of node's path.posix.dirname: skip trailing slashes, cut at the next
slash; `/` (or `.` for relative paths) when no slash remains, `//` in the
double-leading-slash corner case. -/
def posixDirname (s : String) : String :=
  match s.data with
  | [] => "."
  | c0 :: rest =>
    let hasRoot := c0 == '/'
    let r2 := (rest.reverse.dropWhile isSlash).dropWhile (fun c => !isSlash c)
    if r2.isEmpty then (if hasRoot then "/" else ".")
    else if hasRoot && r2.length == 1 then "//"
    else String.mk ((c0 :: rest).take r2.length)

/-- Shared scan of node's basename: the last segment that is not a separator,
ignoring trailing separators; empty when there is none. -/
def basenameChars (isSep : Char → Bool) (cs : List Char) : List Char :=
  ((cs.reverse.dropWhile isSep).takeWhile (fun c => !isSep c)).reverse

def posixBasename (s : String) : String :=
  String.mk (basenameChars isSlash s.data)

/-- Extension of a basename: the suffix from the last dot, except when the
name has no dot, starts with its only dot, or is exactly `..` (node's
extname state machine reduces to these cases). -/
def extnamePart (b : List Char) : List Char :=
  if b == ['.', '.'] then []
  else
    match b.reverse.findIdx? (fun c => c == '.') with
    | none => []
    | some k =>
      let d := b.length - 1 - k
      if d == 0 then [] else b.drop d

def posixExtname (s : String) : String :=
  String.mk (extnamePart (posixBasename s).data)

/-- Model of node's path.posix.resolve accumulation: walk the argument list
right to left, prepending each nonempty path, stopping at the first absolute
one.  Returns the accumulated characters and whether an absolute path was
reached. -/
def resolveAccum (acc : List Char) : List (List Char) → List Char × Bool
  | [] => (acc, false)
  | p :: rest =>
    if p.isEmpty then resolveAccum acc rest
    else
      let acc2 := p ++ '/' :: acc
      if p.head? == some '/' then (acc2, true) else resolveAccum acc2 rest

/-- Model of node's path.posix.resolve restricted to the two-argument call
used by the source (the process working directory is the fallback). -/
def posixResolve (cwd a b : String) : String :=
  let r := resolveAccum [] [b.data, a.data, cwd.data]
  let stack := (normalizeStack (!r.2) (splitByPred isSlash r.1)).reverse
  let core := joinSep '/' stack
  if r.2 then String.mk ('/' :: core)
  else if core.isEmpty then "." else String.mk core

/-! ### The node `path` collaborator, win32 flavour -/

def isWinSep (c : Char) : Bool := c == '\\' || c == '/'

/-- Result of parsing a win32 path root: either an early-returned normalized
UNC root, or the device prefix, absoluteness flag and remaining tail. -/
inductive WinRoot where
  | early (out : List Char)
  | parsed (device : List Char) (isAbs : Bool) (tl : List Char)

/-- Root parsing of node's path.win32.normalize for inputs of length at least
two (c0 and c1 are the first two characters). -/
def winParseRoot (c0 c1 : Char) (rest2 : List Char) : WinRoot :=
  if isWinSep c0 then
    if isWinSep c1 then
      let firstPart := rest2.takeWhile (fun c => !isWinSep c)
      let r1 := rest2.drop firstPart.length
      if firstPart.isEmpty || r1.isEmpty then WinRoot.parsed [] true (c0 :: c1 :: rest2)
      else
        let r2 := r1.dropWhile isWinSep
        if r2.isEmpty then WinRoot.parsed [] true (c0 :: c1 :: rest2)
        else
          let secondPart := r2.takeWhile (fun c => !isWinSep c)
          let r3 := r2.drop secondPart.length
          if r3.isEmpty then
            WinRoot.early ('\\' :: '\\' :: firstPart ++ '\\' :: r2 ++ ['\\'])
          else if secondPart.isEmpty then WinRoot.parsed [] true (c0 :: c1 :: rest2)
          else WinRoot.parsed ('\\' :: '\\' :: firstPart ++ '\\' :: secondPart) true r3
    else WinRoot.parsed [] true (c1 :: rest2)
  else if c0.isAlpha && c1 == ':' then
    match rest2 with
    | [] => WinRoot.parsed [c0, ':'] false []
    | c2 :: rest3 =>
      if isWinSep c2 then WinRoot.parsed [c0, ':'] true rest3
      else WinRoot.parsed [c0, ':'] false (c2 :: rest3)
  else WinRoot.parsed [] false (c0 :: c1 :: rest2)

def lastIsSep (cs : List Char) : Bool :=
  match cs.getLast? with
  | some c => isWinSep c
  | none => false

/-- Model of node's path.win32.normalize. -/
def win32Normalize (s : String) : String :=
  match s.data with
  | [] => "."
  | [c] => if isWinSep c then "\\" else String.mk [c]
  | c0 :: c1 :: rest2 =>
    match winParseRoot c0 c1 rest2 with
    | WinRoot.early out => String.mk out
    | WinRoot.parsed device isAbs tailIn =>
      let stack := (normalizeStack (!isAbs) (splitByPred isWinSep tailIn)).reverse
      let tail0 := joinSep '\\' stack
      let tail1 := if tail0.isEmpty && !isAbs then ['.'] else tail0
      let tail2 :=
        if !tail1.isEmpty && lastIsSep (c0 :: c1 :: rest2) then tail1 ++ ['\\'] else tail1
      if device.isEmpty then
        if isAbs then String.mk ('\\' :: tail2) else String.mk tail2
      else
        if isAbs then String.mk (device ++ '\\' :: tail2) else String.mk (device ++ tail2)

def win32Basename (s : String) : String :=
  let cs := s.data
  let body :=
    match cs with
    | c0 :: c1 :: rest => if c0.isAlpha && c1 == ':' then rest else cs
    | _ => cs
  String.mk (basenameChars isWinSep body)

def win32Extname (s : String) : String :=
  String.mk (extnamePart (win32Basename s).data)

/-- Model of the path.win32.dirname collaborator.  Drive and rooted prefixes
are handled; UNC prefixes are treated like plain separators.  This function
is part of the embedding for completeness of getParent on win32 but is never
evaluated by a theorem of this development. -/
def win32Dirname (s : String) : String :=
  match s.data with
  | [] => "."
  | d :: ds =>
    let cs := d :: ds
    let rootLen :=
      match cs with
      | c0 :: c1 :: rest =>
        if c0.isAlpha && c1 == ':' then
          match rest with
          | c2 :: _ => if isWinSep c2 then 3 else 2
          | [] => 2
        else if isWinSep c0 then 1 else 0
      | [c0] => if isWinSep c0 then 1 else 0
      | [] => 0
    let body := cs.drop rootLen
    let r2 := (body.reverse.dropWhile isWinSep).dropWhile (fun c => !isWinSep c)
    if r2.isEmpty then (if rootLen == 0 then "." else String.mk (cs.take rootLen))
    else String.mk (cs.take (rootLen + (r2.length - 1)))

def win32IsAbsolute (s : String) : Bool :=
  match s.data with
  | [] => false
  | c :: rest =>
    if isWinSep c then true
    else
      match rest with
      | c1 :: c2 :: _ => c.isAlpha && c1 == ':' && isWinSep c2
      | _ => false

/-- Model of node's path.win32.resolve restricted to two arguments; the
per-drive working directories of the real implementation are not modelled
(this development never evaluates win32 resolve in a proof or witness). -/
def win32Resolve (cwd a b : String) : String :=
  if win32IsAbsolute b then win32Normalize b
  else if win32IsAbsolute a then win32Normalize (a ++ "\\" ++ b)
  else win32Normalize (cwd ++ "\\" ++ a ++ "\\" ++ b)

/-! ### Platform dispatch, as done by requiring node's `path` module -/

/-- The value of process.platform as far as the source inspects it: the
`win32` case of its switch statements, and the default case (every posix-like
platform behaves identically there). -/
inductive Platform where
  | win32
  | posix
deriving DecidableEq, Repr

def pathNormalize : Platform → String → String
  | Platform.win32 => win32Normalize
  | Platform.posix => posixNormalize

def pathDirname : Platform → String → String
  | Platform.win32 => win32Dirname
  | Platform.posix => posixDirname

def pathBasename : Platform → String → String
  | Platform.win32 => win32Basename
  | Platform.posix => posixBasename

def pathExtname : Platform → String → String
  | Platform.win32 => win32Extname
  | Platform.posix => posixExtname

def pathResolve (pf : Platform) (cwd base child : String) : String :=
  match pf with
  | Platform.win32 => win32Resolve cwd base child
  | Platform.posix => posixResolve cwd base child

/-! ### Remaining collaborators: line split, colon strip, upper case, sort -/

/-- Model of the JavaScript String split on the line-separator alternation
(crlf first, then lf, then cr), as used on the drive command's stdout. -/
def splitLinesChars : List Char → List (List Char)
  | [] => [[]]
  | '\r' :: '\n' :: rest => [] :: splitLinesChars rest
  | '\r' :: rest => [] :: splitLinesChars rest
  | '\n' :: rest => [] :: splitLinesChars rest
  | c :: rest =>
    match splitLinesChars rest with
    | [] => [[c]]
    | seg :: segs => (c :: seg) :: segs

def splitLines (s : String) : List String :=
  (splitLinesChars s.data).map String.mk

/-- Model of the JavaScript replace of the global colon pattern with the
empty string: every colon character is removed. -/
def stripColons (s : String) : String :=
  String.mk (s.data.filter (fun c => !(c == ':')))

/-- Model of JavaScript toUpperCase, restricted to ASCII (drive captions are
ASCII; both sides uppercase exactly the ASCII lowercase letters there). -/
def jsToUpper (s : String) : String :=
  String.mk (s.data.map Char.toUpper)

/-- Lexicographic less-or-equal on character lists by code point, the model
of the JavaScript default string comparison (identical on the basic plane,
where drive captions live). -/
def charListLe : List Char → List Char → Bool
  | [], _ => true
  | _ :: _, [] => false
  | a :: as, b :: bs =>
    if a.toNat < b.toNat then true
    else if b.toNat < a.toNat then false
    else charListLe as bs

def jsStrLe (a b : String) : Bool :=
  charListLe a.data b.data

/-- Insert a string into a lexicographically sorted list. -/
def insertStr (x : String) : List String → List String
  | [] => [x]
  | y :: ys => if jsStrLe x y then x :: y :: ys else y :: insertStr x ys

/-- Model of the JavaScript Array sort with the default comparator on an
array of strings: the lexicographically ascending rearrangement. -/
def sortStrings (l : List String) : List String :=
  l.foldr insertStr []

/-- Model of Promise.all over a list of already-started promises: fails when
any element fails, otherwise collects the results in order. -/
def promiseAll {α : Type} : List (Option α) → Option (List α)
  | [] => some []
  | none :: _ => none
  | some a :: rest => (promiseAll rest).map (fun l => a :: l)

/-! ### The data model of src/index.ts -/

structure Stats where
  isFile : Bool
  isDirectory : Bool
  isSymbolicLink : Bool
deriving DecidableEq, Repr

/-- ROOT_STATS from the source: the fixed metadata used for the synthetic
win32 root. -/
def ROOT_STATS : Stats :=
  { isFile := false, isDirectory := true, isSymbolicLink := false }

/-- WIN_ROOT_PATTERN from the source: the case-insensitive regex matching a
drive letter followed by a colon and an optional backslash, anchored at both
ends. -/
def WIN_ROOT_PATTERN (s : String) : Bool :=
  match s.data with
  | [c, ':'] => c.isAlpha
  | [c, ':', '\\'] => c.isAlpha
  | _ => false

inductive VpathType where
  | NORMAL
  | WIN32_ROOT
  | OTHER_ROOT
deriving DecidableEq, BEq, Repr

/-- The I/O collaborators consumed by the source, fixed for one run:
process.platform, process.cwd (used by path.resolve), fs.stat, fs.readdir,
os.homedir, and the stdout of the wmic drive-enumeration command (`none`
when executing it fails). -/
structure Env where
  platform : Platform
  cwd : String
  stat : String → Option Stats
  readdir : String → Option (List String)
  homedir : String
  driveCmdOut : Option String

/-- The Vpath value object: the fields of the class in src/index.ts. -/
structure Vpath where
  filePath : String
  basename : String
  extname : String
  isRoot : Bool
  isFile : Bool
  isDirectory : Bool
  isSymbolicLink : Bool
  isOtherFileType : Bool
  vpathType : VpathType
deriving DecidableEq, Repr

/-- The private constructor of the class: normalizes the path, derives
basename and extname from the normalized path, sets isRoot from the kind tag
and copies the metadata flags. -/
def Vpath.make (pf : Platform) (filePath : String) (vpathType : VpathType)
    (stats : Stats) : Vpath :=
  let fp := pathNormalize pf filePath
  { filePath := fp
    basename := pathBasename pf fp
    extname := pathExtname pf fp
    isRoot := vpathType != VpathType.NORMAL
    isFile := stats.isFile
    isDirectory := stats.isDirectory
    isSymbolicLink := stats.isSymbolicLink
    isOtherFileType := !stats.isFile && !stats.isDirectory && !stats.isSymbolicLink
    vpathType := vpathType }

/-- Vpath.createVpath: stat the given path and construct; a failing stat
rejects the promise. -/
def Vpath.createVpath (env : Env) (filePath : String) (vpathType : VpathType) :
    Option Vpath :=
  (env.stat filePath).map (Vpath.make env.platform filePath vpathType)

/-- Vpath.create: the public factory, always of NORMAL kind. -/
def Vpath.create (env : Env) (filePath : String) : Option Vpath :=
  Vpath.createVpath env filePath VpathType.NORMAL

/-- Vpath.getRoot: on win32 a synthetic WIN32_ROOT instance built without any
stat call; on every other platform a stat-backed OTHER_ROOT instance for /. -/
def Vpath.getRoot (env : Env) : Option Vpath :=
  match env.platform with
  | Platform.win32 => some (Vpath.make env.platform "" VpathType.WIN32_ROOT ROOT_STATS)
  | Platform.posix => Vpath.createVpath env "/" VpathType.OTHER_ROOT

/-- Vpath.getHome: stat-backed NORMAL instance for the home directory. -/
def Vpath.getHome (env : Env) : Option Vpath :=
  Vpath.createVpath env env.homedir VpathType.NORMAL

/-- The toString of the class. -/
def Vpath.toString (v : Vpath) : String :=
  "[Vpath " ++ v.filePath ++ "]"

/-- Vpath.getParent: roots are their own parent; on win32 a path matching
WIN_ROOT_PATTERN short-circuits to getRoot; on other platforms a path whose
dirname is / short-circuits to getRoot; otherwise create on the dirname. -/
def Vpath.getParent (env : Env) (v : Vpath) : Option Vpath :=
  if v.isRoot then some v
  else
    match env.platform with
    | Platform.win32 =>
      if WIN_ROOT_PATTERN v.filePath then Vpath.getRoot env
      else Vpath.create env (pathDirname env.platform v.filePath)
    | Platform.posix =>
      if pathDirname Platform.posix v.filePath == "/" then Vpath.getRoot env
      else Vpath.create env (pathDirname env.platform v.filePath)

/-- The pre-sort token extraction of Vpath.getChildrenOfWin32Root: split the
stdout into lines, strip colons and uppercase each line, keep the lines of
length exactly one. -/
def winDriveTokens (stdout : String) : List String :=
  ((splitLines stdout).map (fun x => jsToUpper (stripColons x))).filter
    (fun x => x.length == 1)

/-- The drive-line extraction as the specification words it, for comparison
with winDriveTokens: separators and colons stripped, uppercased, and only
tokens that are exactly one letter kept. -/
def winDriveTokensSpec (stdout : String) : List String :=
  ((splitLines stdout).map (fun x =>
      jsToUpper (String.mk ((stripColons x).data.filter (fun c => !isWinSep c))))).filter
    (fun x => x.length == 1 && x.data.all Char.isAlpha)

/-- Vpath.getChildrenOfWin32Root: run the drive enumeration command, extract
and sort the tokens, and create one child per token with a colon appended. -/
def Vpath.getChildrenOfWin32Root (env : Env) : Option (List Vpath) :=
  (env.driveCmdOut).bind (fun stdout =>
    let drives := sortStrings (winDriveTokens stdout)
    promiseAll (drives.map (fun x => Vpath.create env (x ++ ":"))))

/-- Vpath.getChildren: the win32 synthetic root enumerates drives; every
other instance lists the directory and creates one child per entry, resolved
against this path; any failure rejects the whole call. -/
def Vpath.getChildren (env : Env) (v : Vpath) : Option (List Vpath) :=
  match v.vpathType with
  | VpathType.WIN32_ROOT => Vpath.getChildrenOfWin32Root env
  | _ =>
    (env.readdir v.filePath).bind (fun children =>
      promiseAll (children.map (fun child =>
        Vpath.create env (pathResolve env.platform env.cwd v.filePath child))))

/-- Vpath.getRoute, with an explicit bound on the recursion depth: the source
recurses through getParent until isRoot holds.  The outer Option is the
bound (`none`: the recursion does not finish within the given number of
unfoldings), the inner Option is the promise (`some none`: some getParent or
create along the ascent rejected). -/
def Vpath.getRoute (env : Env) : Nat → Vpath → Option (Option (List Vpath))
  | 0, _ => none
  | n + 1, v =>
    if v.isRoot then some (some [v])
    else
      match Vpath.getParent env v with
      | none => some none
      | some p =>
        match Vpath.getRoute env n p with
        | none => none
        | some none => some none
        | some (some route) => some (some (route ++ [v]))

/-! ### Concrete environments and instances used to evaluate the model -/

def dirStats : Stats :=
  { isFile := false, isDirectory := true, isSymbolicLink := false }

def fileStats : Stats :=
  { isFile := true, isDirectory := false, isSymbolicLink := false }

/-- A small posix filesystem: / with a directory subtree /a/b containing the
file c.txt, a directory entry named ghost that vanishes before it can be
stat'd, and relative entries a and . visible from the working directory. -/
def envP : Env :=
  { platform := Platform.posix
    cwd := "/"
    homedir := "/home/user"
    stat := fun p =>
      if p = "/" then some dirStats
      else if p = "/a" then some dirStats
      else if p = "/./a" then some dirStats
      else if p = "/a/b" then some dirStats
      else if p = "/a/b/c.txt" then some fileStats
      else if p = "a" then some dirStats
      else if p = "." then some dirStats
      else none
    readdir := fun p =>
      if p = "/a" then some ["b"]
      else if p = "/a/b" then some ["c.txt", "ghost"]
      else none
    driveCmdOut := none }

/-- A win32 environment with no filesystem behind it. -/
def envW : Env :=
  { platform := Platform.win32
    cwd := "C:\\"
    homedir := "C:\\Users\\u"
    stat := fun _ => none
    readdir := fun _ => none
    driveCmdOut := none }

/-- A win32 environment whose drive command prints a line 1 (a single
non-letter character) and a line C followed by a backslash. -/
def envW1 : Env :=
  { platform := Platform.win32
    cwd := "C:\\"
    homedir := "C:\\Users\\u"
    stat := fun p => if p = "1:" then some dirStats else none
    readdir := fun _ => none
    driveCmdOut := some "1\r\nC\\" }

/-- A win32 environment whose drive command reports the same drive letter
twice, in different letter case. -/
def envW2 : Env :=
  { platform := Platform.win32
    cwd := "C:\\"
    homedir := "C:\\Users\\u"
    stat := fun p => if p = "C:" then some dirStats else none
    readdir := fun _ => none
    driveCmdOut := some "c:\nC:" }

/-- The instance create produces for / in envP. -/
def vRootN : Vpath :=
  Vpath.make Platform.posix "/" VpathType.NORMAL dirStats

/-- The OTHER_ROOT instance getRoot produces in envP. -/
def rootP : Vpath :=
  Vpath.make Platform.posix "/" VpathType.OTHER_ROOT dirStats

/-- The instance create produces for /a in envP. -/
def vA : Vpath :=
  Vpath.make Platform.posix "/a" VpathType.NORMAL dirStats

/-- The instance create produces for /a/b in envP. -/
def vDirB : Vpath :=
  Vpath.make Platform.posix "/a/b" VpathType.NORMAL dirStats

/-- The instance create produces for the file /a/b/c.txt in envP. -/
def vFile : Vpath :=
  Vpath.make Platform.posix "/a/b/c.txt" VpathType.NORMAL fileStats

/-- The instance create produces for the relative path a in envP. -/
def vRelA : Vpath :=
  Vpath.make Platform.posix "a" VpathType.NORMAL dirStats

/-- The drive child create produces for C: in envW2. -/
def driveC : Vpath :=
  Vpath.make Platform.win32 "C:" VpathType.NORMAL dirStats

/-- Character budget of a segment stack: total segment length plus one
separator per segment.  Joining a nonempty stack uses exactly one character
less. -/
def segCost (l : List (List Char)) : Nat :=
  (l.map List.length).sum + l.length

/-! ### General lemmas about the collaborator models -/

theorem promiseAll_length {α : Type} :
    ∀ (xs : List (Option α)) (l : List α), promiseAll xs = some l → l.length = xs.length := by
  intro xs
  induction xs with
  | nil => intro l h; simp [promiseAll] at h; simp [h.symm]
  | cons x rest ih =>
    intro l h
    cases x with
    | none => simp [promiseAll] at h
    | some a =>
      simp only [promiseAll, Option.map_eq_some'] at h
      obtain ⟨l2, h2, hl⟩ := h
      subst hl
      simp [ih l2 h2]

theorem promiseAll_map_mem {α β : Type} (f : α → Option β) :
    ∀ (xs : List α) (l : List β), promiseAll (xs.map f) = some l →
      ∀ c ∈ l, ∃ x ∈ xs, f x = some c := by
  intro xs
  induction xs with
  | nil => intro l h c hc; simp [promiseAll] at h; subst h; simp at hc
  | cons x rest ih =>
    intro l h c hc
    simp only [List.map_cons] at h
    cases hx : f x with
    | none => rw [hx] at h; simp [promiseAll] at h
    | some a =>
      rw [hx] at h
      simp only [promiseAll, Option.map_eq_some'] at h
      obtain ⟨l2, h2, hl⟩ := h
      subst hl
      rcases List.mem_cons.mp hc with hc | hc
      · subst hc; exact ⟨x, List.mem_cons_self x rest, hx⟩
      · obtain ⟨y, hy, hfy⟩ := ih l2 h2 c hc
        exact ⟨y, List.mem_cons_of_mem x hy, hfy⟩

theorem promiseAll_map_none {α β : Type} (f : α → Option β) :
    ∀ (xs : List α) (x : α), x ∈ xs → f x = none → promiseAll (xs.map f) = none := by
  intro xs
  induction xs with
  | nil => intro x hx; simp at hx
  | cons y rest ih =>
    intro x hx hfx
    rcases List.mem_cons.mp hx with h | h
    · subst h; simp [promiseAll, hfx]
    · simp only [List.map_cons]
      cases hy : f y with
      | none => simp [promiseAll]
      | some a => simp [promiseAll, ih x h hfx]

theorem charListLe_total : ∀ a b : List Char, charListLe a b = true ∨ charListLe b a = true := by
  intro a
  induction a with
  | nil => intro b; exact Or.inl rfl
  | cons x xs ih =>
    intro b
    cases b with
    | nil => exact Or.inr rfl
    | cons y ys =>
      simp only [charListLe]
      by_cases h1 : x.toNat < y.toNat
      · left; rw [if_pos h1]
      · by_cases h2 : y.toNat < x.toNat
        · right; rw [if_pos h2]
        · rw [if_neg h1, if_neg h2, if_neg h2, if_neg h1]
          exact ih ys

theorem charListLe_trans :
    ∀ a b c : List Char, charListLe a b = true → charListLe b c = true →
      charListLe a c = true := by
  intro a
  induction a with
  | nil => intro b c _ _; rfl
  | cons x xs ih =>
    intro b c hab hbc
    cases b with
    | nil => simp [charListLe] at hab
    | cons y ys =>
      cases c with
      | nil => simp [charListLe] at hbc
      | cons z zs =>
        simp only [charListLe] at hab hbc ⊢
        by_cases h1 : x.toNat < y.toNat
        · by_cases h2 : y.toNat < z.toNat
          · rw [if_pos (by omega)]
          · by_cases h3 : z.toNat < y.toNat
            · rw [if_neg h2, if_pos h3] at hbc
              exact absurd hbc (by simp)
            · rw [if_pos (by omega)]
        · by_cases h1b : y.toNat < x.toNat
          · rw [if_neg h1, if_pos h1b] at hab
            exact absurd hab (by simp)
          · rw [if_neg h1, if_neg h1b] at hab
            by_cases h2 : y.toNat < z.toNat
            · rw [if_pos (by omega)]
            · by_cases h3 : z.toNat < y.toNat
              · rw [if_neg h2, if_pos h3] at hbc
                exact absurd hbc (by simp)
              · rw [if_neg h2, if_neg h3] at hbc
                rw [if_neg (by omega), if_neg (by omega)]
                exact ih ys zs hab hbc

theorem jsStrLe_total (a b : String) : jsStrLe a b = true ∨ jsStrLe b a = true :=
  charListLe_total a.data b.data

theorem jsStrLe_trans (a b c : String) (h1 : jsStrLe a b = true) (h2 : jsStrLe b c = true) :
    jsStrLe a c = true :=
  charListLe_trans a.data b.data c.data h1 h2

theorem insertStr_length (x : String) :
    ∀ l : List String, (insertStr x l).length = l.length + 1 := by
  intro l
  induction l with
  | nil => rfl
  | cons y ys ih =>
    by_cases h : jsStrLe x y = true
    · simp [insertStr, h]
    · simp [insertStr, h, ih]

theorem insertStr_mem (x : String) :
    ∀ (l : List String) (a : String), a ∈ insertStr x l ↔ a = x ∨ a ∈ l := by
  intro l
  induction l with
  | nil => intro a; simp [insertStr]
  | cons y ys ih =>
    intro a
    by_cases h : jsStrLe x y = true
    · simp [insertStr, h]
    · have hf : jsStrLe x y = false := by simpa using h
      simp only [insertStr, hf, Bool.false_eq_true, if_false, List.mem_cons, ih]
      tauto

theorem insertStr_pairwise (x : String) :
    ∀ l : List String, l.Pairwise (fun a b => jsStrLe a b = true) →
      (insertStr x l).Pairwise (fun a b => jsStrLe a b = true) := by
  intro l
  induction l with
  | nil => intro _; simp [insertStr]
  | cons y ys ih =>
    intro hp
    rw [List.pairwise_cons] at hp
    by_cases h : jsStrLe x y = true
    · rw [insertStr, if_pos h, List.pairwise_cons]
      constructor
      · intro b hb
        rcases List.mem_cons.mp hb with hb | hb
        · exact hb ▸ h
        · exact jsStrLe_trans x y b h (hp.1 b hb)
      · rw [List.pairwise_cons]
        exact hp
    · rw [insertStr, if_neg h, List.pairwise_cons]
      constructor
      · intro b hb
        rcases (insertStr_mem x ys b).mp hb with hb | hb
        · rw [hb]
          rcases jsStrLe_total x y with h2 | h2
          · exact absurd h2 h
          · exact h2
        · exact hp.1 b hb
      · exact ih hp.2

theorem sortStrings_length : ∀ l : List String, (sortStrings l).length = l.length := by
  intro l
  induction l with
  | nil => rfl
  | cons x xs ih =>
    simp only [sortStrings, List.foldr_cons, insertStr_length, List.length_cons]
    simpa [sortStrings] using ih

theorem sortStrings_pairwise :
    ∀ l : List String, (sortStrings l).Pairwise (fun a b => jsStrLe a b = true) := by
  intro l
  induction l with
  | nil => simp [sortStrings]
  | cons x xs ih => exact insertStr_pairwise x _ ih

/-! ### Basic lemmas about the factories -/

theorem create_eq_some (env : Env) (p : String) (v : Vpath) :
    Vpath.create env p = some v ↔
      ∃ st, env.stat p = some st ∧ v = Vpath.make env.platform p VpathType.NORMAL st := by
  simp only [Vpath.create, Vpath.createVpath, Option.map_eq_some']
  constructor
  · rintro ⟨st, h1, h2⟩; exact ⟨st, h1, h2.symm⟩
  · rintro ⟨st, h1, h2⟩; exact ⟨st, h1, h2.symm⟩

theorem make_isRoot (pf : Platform) (p : String) (t : VpathType) (st : Stats) :
    (Vpath.make pf p t st).isRoot = (t != VpathType.NORMAL) := rfl

theorem make_filePath (pf : Platform) (p : String) (t : VpathType) (st : Stats) :
    (Vpath.make pf p t st).filePath = pathNormalize pf p := rfl

theorem make_vpathType (pf : Platform) (p : String) (t : VpathType) (st : Stats) :
    (Vpath.make pf p t st).vpathType = t := rfl

theorem create_fields (env : Env) (p : String) (v : Vpath)
    (h : Vpath.create env p = some v) :
    v.isRoot = false ∧ v.vpathType = VpathType.NORMAL ∧
      v.filePath = pathNormalize env.platform p := by
  obtain ⟨st, _, hv⟩ := (create_eq_some env p v).mp h
  subst hv
  exact ⟨rfl, rfl, rfl⟩

theorem getRoot_isRoot (env : Env) (r : Vpath) (h : Vpath.getRoot env = some r) :
    r.isRoot = true := by
  unfold Vpath.getRoot at h
  cases hp : env.platform with
  | win32 =>
    rw [hp] at h
    simp only [Option.some.injEq] at h
    subst h; rfl
  | posix =>
    rw [hp] at h
    simp only [Vpath.createVpath, Option.map_eq_some'] at h
    obtain ⟨st, _, hr⟩ := h
    subst hr; rfl

/-! ### Length accounting for normalizeStack, towards termination of getRoute -/

theorem segCost_cons (s : List Char) (l : List (List Char)) :
    segCost (s :: l) = s.length + 1 + segCost l := by
  simp [segCost]; omega

theorem segCost_reverse (l : List (List Char)) : segCost l.reverse = segCost l := by
  simp [segCost, List.sum_reverse]

theorem normStep_cost (a : Bool) (st : List (List Char)) (s : List Char) :
    segCost (normStep a st s) ≤ segCost st + (s.length + 1) := by
  unfold normStep
  by_cases h1 : (s == ([] : List Char) || s == ['.']) = true
  · rw [if_pos h1]; omega
  · rw [if_neg h1]
    by_cases h2 : (s == ['.', '.']) = true
    · rw [if_pos h2]
      have hs : s = ['.', '.'] := by simpa using h2
      subst hs
      cases st with
      | nil =>
        cases a <;> simp [segCost]
      | cons top rest =>
        by_cases h3 : (top == ['.', '.']) = true
        · cases a
          · simp [h3, segCost_cons]
          · simp [h3, segCost_cons]
            omega
        · simp only [h3]
          simp [segCost_cons]
          omega
    · rw [if_neg h2, segCost_cons]; omega

theorem foldl_normStep_cost (a : Bool) :
    ∀ (segs : List (List Char)) (init : List (List Char)),
      segCost (List.foldl (normStep a) init segs) ≤
        segCost init + (segs.map (fun s => s.length + 1)).sum := by
  intro segs
  induction segs with
  | nil => intro init; simp
  | cons s rest ih =>
    intro init
    simp only [List.foldl_cons, List.map_cons, List.sum_cons]
    calc segCost (List.foldl (normStep a) (normStep a init s) rest)
        ≤ segCost (normStep a init s) + (rest.map (fun s => s.length + 1)).sum := ih _
      _ ≤ segCost init + (s.length + 1) + (rest.map (fun s => s.length + 1)).sum := by
          have := normStep_cost a init s; omega
      _ = segCost init + (s.length + 1 + (rest.map (fun s => s.length + 1)).sum) := by omega

theorem splitByPred_ne_nil (p : Char → Bool) : ∀ l : List Char, splitByPred p l ≠ [] := by
  intro l
  cases l with
  | nil => simp [splitByPred]
  | cons c rest =>
    by_cases h : p c = true
    · simp [splitByPred, h]
    · simp only [splitByPred, if_neg h]
      cases splitByPred p rest <;> simp

theorem splitByPred_cons_sep (p : Char → Bool) (c : Char) (l : List Char)
    (h : p c = true) : splitByPred p (c :: l) = [] :: splitByPred p l := by
  simp [splitByPred, h]

theorem splitByPred_cons_nonsep (p : Char → Bool) (c : Char) (l : List Char)
    (h : p c = false) :
    splitByPred p (c :: l) =
      match splitByPred p l with
      | [] => [[c]]
      | seg :: segs => (c :: seg) :: segs := by
  simp [splitByPred, h]

theorem splitByPred_sum (p : Char → Bool) :
    ∀ l : List Char, ((splitByPred p l).map (fun s => s.length + 1)).sum = l.length + 1 := by
  intro l
  induction l with
  | nil => rfl
  | cons c rest ih =>
    by_cases h : p c = true
    · rw [splitByPred_cons_sep p c rest h]
      simp [ih]
      omega
    · rw [splitByPred_cons_nonsep p c rest (by simpa using h)]
      cases hs : splitByPred p rest with
      | nil => exact absurd hs (splitByPred_ne_nil p rest)
      | cons seg segs =>
        rw [hs] at ih
        simp only [List.map_cons, List.sum_cons, List.length_cons] at ih ⊢
        omega

theorem splitByPred_append_sep (p : Char → Bool) (c : Char) (hc : p c = true) :
    ∀ l : List Char, splitByPred p (l ++ [c]) = splitByPred p l ++ [[]] := by
  intro l
  induction l with
  | nil => simp [splitByPred, hc]
  | cons d rest ih =>
    rw [List.cons_append]
    by_cases h : p d = true
    · rw [splitByPred_cons_sep p d _ h, splitByPred_cons_sep p d _ h, ih]
      rfl
    · rw [splitByPred_cons_nonsep p d _ (by simpa using h),
        splitByPred_cons_nonsep p d _ (by simpa using h), ih]
      cases hs : splitByPred p rest with
      | nil => exact absurd hs (splitByPred_ne_nil p rest)
      | cons seg segs => simp

theorem normStep_nil (a : Bool) (st : List (List Char)) : normStep a st [] = st := by
  simp [normStep]

theorem joinSep_length (sep : Char) :
    ∀ (s : List Char) (rest : List (List Char)),
      (joinSep sep (s :: rest)).length + 1 = segCost (s :: rest) := by
  intro s rest
  induction rest generalizing s with
  | nil => simp [joinSep, segCost]
  | cons r rr ih =>
    show (s ++ sep :: joinSep sep (r :: rr)).length + 1 = _
    have := ih r
    rw [segCost_cons]
    simp only [List.length_append, List.length_cons] at *
    omega

theorem dropWhile_head_false (p : Char → Bool) :
    ∀ (l : List Char) (h : Char) (t : List Char), l.dropWhile p = h :: t → p h = false := by
  intro l
  induction l with
  | nil => intro h t hd; simp [List.dropWhile] at hd
  | cons c cs ih =>
    intro h t hd
    by_cases hc : p c = true
    · rw [List.dropWhile_cons_of_pos hc] at hd
      exact ih h t hd
    · rw [List.dropWhile_cons_of_neg hc] at hd
      cases hd
      simpa using hc

theorem posixNormalize_cons (c0 : Char) (rest : List Char) :
    posixNormalize (String.mk (c0 :: rest)) =
      (let isAbs := c0 == '/'
       let trailing := (c0 :: rest).getLast? == some '/'
       let stack := (normalizeStack (!isAbs) (splitByPred isSlash (c0 :: rest))).reverse
       let core := joinSep '/' stack
       if core.isEmpty then
         String.mk (if isAbs then ['/'] else if trailing then ['.', '/'] else ['.'])
       else
         String.mk ((if isAbs then ['/'] else []) ++ core ++ (if trailing then ['/'] else []))) :=
  rfl

theorem stack_cost_bound (cs : List Char) :
    segCost (normalizeStack false (splitByPred isSlash cs)) ≤ cs.length + 1 := by
  have h1 := foldl_normStep_cost false (splitByPred isSlash cs) []
  rw [splitByPred_sum isSlash cs] at h1
  have h0 : segCost ([] : List (List Char)) = 0 := rfl
  rw [h0] at h1
  simpa [normalizeStack] using h1

theorem stack_cost_bound_trailing (pre : List Char) :
    segCost (normalizeStack false (splitByPred isSlash (pre ++ ['/']))) ≤ pre.length + 1 := by
  rw [splitByPred_append_sep isSlash '/' rfl pre]
  have : normalizeStack false (splitByPred isSlash pre ++ [[]]) =
      normalizeStack false (splitByPred isSlash pre) := by
    simp [normalizeStack, List.foldl_append, normStep_nil]
  rw [this]
  exact stack_cost_bound pre

theorem posixNormalize_abs (s : String) (h : s.data.head? = some '/') :
    (posixNormalize s).data.head? = some '/' ∧
      (posixNormalize s).data.length ≤ s.data.length := by
  cases s with
  | mk cs =>
  cases cs with
  | nil => simp at h
  | cons c0 rest =>
  have hc0 : c0 = '/' := by simpa using h
  subst hc0
  have hsplit : splitByPred isSlash ('/' :: rest) = [] :: splitByPred isSlash rest :=
    splitByPred_cons_sep isSlash '/' rest rfl
  have hfold : normalizeStack false ([] :: splitByPred isSlash rest) =
      normalizeStack false (splitByPred isSlash rest) := by
    simp [normalizeStack, normStep_nil]
  rw [posixNormalize_cons]
  simp only [beq_self_eq_true, Bool.not_true, hsplit, hfold, if_true]
  set st := normalizeStack false (splitByPred isSlash rest) with hst
  by_cases hce : (joinSep '/' st.reverse).isEmpty = true
  · rw [if_pos hce]
    constructor
    · rfl
    · simp
  · rw [if_neg hce]
    have hcost : segCost st ≤ rest.length + 1 := stack_cost_bound rest
    have hrevne : st.reverse ≠ [] := by
      intro hrev
      rw [hrev] at hce
      exact hce rfl
    obtain ⟨t, ts, hrev⟩ : ∃ t ts, st.reverse = t :: ts := by
      cases hr : st.reverse with
      | nil => exact absurd hr hrevne
      | cons t ts => exact ⟨t, ts, rfl⟩
    have hjlen : (joinSep '/' st.reverse).length + 1 = segCost st := by
      rw [hrev, joinSep_length '/' t ts, ← hrev, segCost_reverse]
    by_cases htr : ((('/' :: rest).getLast? == some '/') = true)
    · rw [if_pos htr]
      have hrestne : rest ≠ [] := by
        intro hnil
        subst hnil
        have : st = [] := by
          rw [hst]
          rfl
        rw [this] at hrev
        simp at hrev
      obtain ⟨r, rs, hrest⟩ : ∃ r rs, rest = r :: rs := by
        cases hr2 : rest with
        | nil => exact absurd hr2 hrestne
        | cons r rs => exact ⟨r, rs, rfl⟩
      have hlast0 : ('/' :: rest).getLast? = some '/' := eq_of_beq htr
      have hlast : rest.getLast? = some '/' := by
        rw [hrest] at hlast0 ⊢
        rwa [List.getLast?_cons_cons] at hlast0
      have hlastv : rest.getLast hrestne = '/' := by
        have := List.getLast?_eq_getLast rest hrestne
        rw [this] at hlast
        exact Option.some.inj hlast
      have hdecomp : rest.dropLast ++ ['/'] = rest := by
        have := List.dropLast_append_getLast hrestne
        rwa [hlastv] at this
      have hcost2 : segCost st ≤ rest.length := by
        have := stack_cost_bound_trailing rest.dropLast
        rw [hdecomp] at this
        rw [hst]
        have hdl : rest.dropLast.length = rest.length - 1 := List.length_dropLast rest
        have hrl : 1 ≤ rest.length := by rw [hrest]; simp
        omega
      constructor
      · simp
      · simp only [List.append_assoc, List.cons_append, List.nil_append]
        simp only [List.length_append, List.length_cons, List.length_nil]
        omega
    · rw [if_neg htr]
      constructor
      · simp
      · simp only [List.append_assoc, List.cons_append, List.nil_append, List.append_nil]
        simp only [List.length_append, List.length_cons]
        omega

theorem posixDirname_cons (c0 : Char) (rest : List Char) :
    posixDirname (String.mk (c0 :: rest)) =
      (let hasRoot := c0 == '/'
       let r2 := (rest.reverse.dropWhile isSlash).dropWhile (fun c => !isSlash c)
       if r2.isEmpty then (if hasRoot then "/" else ".")
       else if hasRoot && r2.length == 1 then "//"
       else String.mk ((c0 :: rest).take r2.length)) :=
  rfl

theorem dropWhile_length_le (p : Char → Bool) :
    ∀ l : List Char, (l.dropWhile p).length ≤ l.length := by
  intro l
  induction l with
  | nil => simp
  | cons c cs ih =>
    rw [List.dropWhile_cons]
    by_cases h : p c = true
    · rw [if_pos h]; simp only [List.length_cons]; omega
    · rw [if_neg h]

theorem posixDirname_r2_short (rest : List Char) (t : Char) (ts : List Char)
    (h : (rest.reverse.dropWhile isSlash).dropWhile (fun c => !isSlash c) = t :: ts) :
    ts.length + 2 ≤ rest.length := by
  set d1 := rest.reverse.dropWhile isSlash with hd1
  have hd1len : d1.length ≤ rest.length := by
    rw [hd1]
    calc (rest.reverse.dropWhile isSlash).length ≤ rest.reverse.length :=
          dropWhile_length_le isSlash rest.reverse
      _ = rest.length := List.length_reverse rest
  cases hd1c : d1 with
  | nil => rw [hd1c] at h; simp [List.dropWhile] at h
  | cons h1 t1 =>
    have hh1 : isSlash h1 = false := dropWhile_head_false isSlash rest.reverse h1 t1 (hd1 ▸ hd1c)
    have hstep : List.dropWhile (fun c => !isSlash c) (h1 :: t1) =
        List.dropWhile (fun c => !isSlash c) t1 := by
      rw [List.dropWhile_cons]
      simp [hh1]
    rw [hd1c, hstep] at h
    have hlen : (t :: ts).length ≤ t1.length := h ▸ dropWhile_length_le _ t1
    rw [hd1c] at hd1len
    simp only [List.length_cons] at hlen hd1len
    omega

theorem posixDirname_abs (s : String) (h : s.data.head? = some '/') :
    posixDirname s = "/" ∨
      ((posixDirname s).data.head? = some '/' ∧
        (posixDirname s).data.length < s.data.length) := by
  cases s with
  | mk cs =>
  cases cs with
  | nil => simp at h
  | cons c0 rest =>
  have hc0 : c0 = '/' := by simpa using h
  subst hc0
  rw [posixDirname_cons]
  simp only [beq_self_eq_true, if_true, Bool.true_and]
  set r2 := (rest.reverse.dropWhile isSlash).dropWhile (fun c => !isSlash c) with hr2
  by_cases he : r2.isEmpty = true
  · rw [if_pos he]
    exact Or.inl rfl
  · rw [if_neg he]
    obtain ⟨t, ts, htts⟩ : ∃ t ts, r2 = t :: ts := by
      cases hc : r2 with
      | nil => rw [hc] at he; exact absurd rfl he
      | cons t ts => exact ⟨t, ts, rfl⟩
    have hshort : ts.length + 2 ≤ rest.length :=
      posixDirname_r2_short rest t ts (hr2 ▸ htts)
    by_cases hl : (r2.length == 1) = true
    · rw [if_pos hl]
      refine Or.inr ⟨rfl, ?_⟩
      simp only [List.length_cons]
      have : r2.length = 1 := by simpa using hl
      rw [htts] at this
      simp only [List.length_cons] at this
      have hts0 : ts.length = 0 := by omega
      show ("//".data).length < rest.length + 1
      have h2 : ("//".data).length = 2 := rfl
      omega
    · rw [if_neg hl]
      refine Or.inr ⟨?_, ?_⟩
      · rw [htts]
        simp only [List.length_cons]
        rw [List.take_succ_cons]
        rfl
      · rw [htts]
        simp only [List.length_cons, List.length_take, List.length_cons]
        omega

/-! ### Lemmas about getParent, getRoot and getRoute -/

theorem getRoute_succ (env : Env) (n : Nat) (v : Vpath) :
    Vpath.getRoute env (n + 1) v =
      (if v.isRoot then some (some [v])
       else
         match Vpath.getParent env v with
         | none => some none
         | some p =>
           match Vpath.getRoute env n p with
           | none => none
           | some none => some none
           | some (some route) => some (some (route ++ [v]))) :=
  rfl

theorem getParent_posix (env : Env) (v : Vpath) (hp : env.platform = Platform.posix)
    (hr : v.isRoot = false) :
    Vpath.getParent env v =
      (if posixDirname v.filePath == "/" then Vpath.getRoot env
       else Vpath.create env (posixDirname v.filePath)) := by
  unfold Vpath.getParent
  rw [hr, hp]
  simp [pathDirname]

theorem getParent_of_isRoot (env : Env) (v : Vpath) (hr : v.isRoot = true) :
    Vpath.getParent env v = some v := by
  unfold Vpath.getParent
  rw [hr]
  rfl

theorem getRoot_posix (env : Env) (hp : env.platform = Platform.posix) :
    Vpath.getRoot env =
      (env.stat "/").map (Vpath.make Platform.posix "/" VpathType.OTHER_ROOT) := by
  unfold Vpath.getRoot Vpath.createVpath
  rw [hp]

theorem create_platform (env : Env) (p : String) :
    Vpath.create env p = (env.stat p).map (Vpath.make env.platform p VpathType.NORMAL) :=
  rfl

theorem create_posix (env : Env) (hp : env.platform = Platform.posix) (p : String) :
    Vpath.create env p = (env.stat p).map (Vpath.make Platform.posix p VpathType.NORMAL) := by
  rw [create_platform, hp]

theorem getRoute_succ_root (env : Env) (n : Nat) (v : Vpath) (hr : v.isRoot = true) :
    Vpath.getRoute env (n + 1) v = some (some [v]) := by
  rw [getRoute_succ, if_pos hr]

theorem getRoute_succ_noparent (env : Env) (n : Nat) (v : Vpath) (hr : v.isRoot = false)
    (hp : Vpath.getParent env v = none) :
    Vpath.getRoute env (n + 1) v = some none := by
  rw [getRoute_succ, if_neg (by simp [hr]), hp]

theorem getRoute_succ_parent (env : Env) (n : Nat) (v p : Vpath) (hr : v.isRoot = false)
    (hp : Vpath.getParent env v = some p) :
    Vpath.getRoute env (n + 1) v =
      (match Vpath.getRoute env n p with
       | none => none
       | some none => some none
       | some (some route) => some (some (route ++ [v]))) := by
  rw [getRoute_succ, if_neg (by simp [hr]), hp]

theorem getRoute_head (env : Env) :
    ∀ (n : Nat) (v : Vpath) (l : List Vpath),
      Vpath.getRoute env n v = some (some l) → ∃ h t, l = h :: t ∧ h.isRoot = true := by
  intro n
  induction n with
  | zero => intro v l h; simp [Vpath.getRoute] at h
  | succ n ih =>
    intro v l h
    by_cases hr : v.isRoot = true
    · rw [getRoute_succ_root env n v hr] at h
      have hl : l = [v] := (Option.some.inj (Option.some.inj h)).symm
      exact ⟨v, [], hl, hr⟩
    · have hrf : v.isRoot = false := by simpa using hr
      cases hp : Vpath.getParent env v with
      | none =>
        rw [getRoute_succ_noparent env n v hrf hp] at h
        simp at h
      | some p =>
        rw [getRoute_succ_parent env n v p hrf hp] at h
        cases hq : Vpath.getRoute env n p with
        | none => rw [hq] at h; simp at h
        | some r =>
          rw [hq] at h
          cases r with
          | none => simp at h
          | some route =>
            simp only [Option.some.injEq] at h
            obtain ⟨h0, t0, hroute, hh0⟩ := ih p route hq
            refine ⟨h0, t0 ++ [v], ?_, hh0⟩
            rw [← h, hroute]
            simp

theorem getRoute_total_aux (env : Env) (hp : env.platform = Platform.posix) :
    ∀ (k : Nat) (v : Vpath), v.filePath.data.length ≤ k →
      v.filePath.data.head? = some '/' → ∃ n r, Vpath.getRoute env n v = some r := by
  intro k
  induction k with
  | zero =>
    intro v hl hh
    cases hv : v.filePath.data with
    | nil => rw [hv] at hh; simp at hh
    | cons c cs => rw [hv] at hl; simp at hl
  | succ k ih =>
    intro v hl hh
    by_cases hr : v.isRoot = true
    · exact ⟨1, some [v], getRoute_succ_root env 0 v hr⟩
    · have hrf : v.isRoot = false := by simpa using hr
      by_cases hd : (posixDirname v.filePath == "/") = true
      · cases hstat : env.stat "/" with
        | none =>
          have hpar : Vpath.getParent env v = none := by
            rw [getParent_posix env v hp hrf, if_pos hd, getRoot_posix env hp, hstat]
            rfl
          exact ⟨1, none, getRoute_succ_noparent env 0 v hrf hpar⟩
        | some st =>
          have hpar : Vpath.getParent env v =
              some (Vpath.make Platform.posix "/" VpathType.OTHER_ROOT st) := by
            rw [getParent_posix env v hp hrf, if_pos hd, getRoot_posix env hp, hstat]
            rfl
          refine ⟨2, some ([Vpath.make Platform.posix "/" VpathType.OTHER_ROOT st] ++ [v]), ?_⟩
          rw [show (2 : Nat) = 1 + 1 from rfl,
            getRoute_succ_parent env 1 v _ hrf hpar,
            getRoute_succ_root env 0 _ rfl]
      · have hdir := posixDirname_abs v.filePath hh
        have hne : ¬(posixDirname v.filePath = "/") := by
          intro heq
          rw [heq] at hd
          simp at hd
        rcases hdir with heq | hdir2
        · exact absurd heq hne
        · obtain ⟨hhead, hlt⟩ := hdir2
          cases hstat : env.stat (posixDirname v.filePath) with
          | none =>
            have hpar : Vpath.getParent env v = none := by
              rw [getParent_posix env v hp hrf, if_neg hd, create_posix env hp, hstat]
              rfl
            exact ⟨1, none, getRoute_succ_noparent env 0 v hrf hpar⟩
          | some st =>
            have hpar : Vpath.getParent env v =
                some (Vpath.make Platform.posix (posixDirname v.filePath) VpathType.NORMAL st) := by
              rw [getParent_posix env v hp hrf, if_neg hd, create_posix env hp, hstat]
              rfl
            have hnorm := posixNormalize_abs (posixDirname v.filePath) hhead
            have hphead :
                (Vpath.make Platform.posix (posixDirname v.filePath) VpathType.NORMAL
                  st).filePath.data.head? = some '/' := hnorm.1
            have hplen :
                (Vpath.make Platform.posix (posixDirname v.filePath) VpathType.NORMAL
                  st).filePath.data.length ≤ k := by
              have h2 := hnorm.2
              have h3 :
                  (Vpath.make Platform.posix (posixDirname v.filePath) VpathType.NORMAL
                    st).filePath = posixNormalize (posixDirname v.filePath) := rfl
              rw [h3]
              omega
            obtain ⟨n, r, hnr⟩ := ih _ hplen hphead
            cases r with
            | none =>
              refine ⟨n + 1, none, ?_⟩
              rw [getRoute_succ_parent env n v _ hrf hpar, hnr]
            | some l =>
              refine ⟨n + 1, some (l ++ [v]), ?_⟩
              rw [getRoute_succ_parent env n v _ hrf hpar, hnr]

/-! ### The claims -/

/-- C1, as stated, is false on the code: create always returns a NORMAL-kind
instance, so create of the root path / yields isRoot = false, not true.
Evaluated in the concrete posix environment. -/
theorem spec_c1_counterexample :
    (Vpath.create envP "/").map Vpath.isRoot = some false ∧
      (Vpath.create envP "/").map Vpath.isRoot ≠ some true := by
  exact ⟨rfl, by decide⟩

/-- C1 (amended): on a single-root system, create of the root path string
yields an instance whose isRoot is false (create always produces NORMAL
kind), and getParent of that instance returns an instance whose path is /
(and which is a root). -/
theorem spec_c1_create_slash (env : Env) (v : Vpath)
    (hp : env.platform = Platform.posix) (h : Vpath.create env "/" = some v) :
    v.isRoot = false ∧
      ∃ p, Vpath.getParent env v = some p ∧ p.filePath = "/" ∧ p.isRoot = true := by
  obtain ⟨st, hstat, hv⟩ := (create_eq_some env "/" v).mp h
  rw [hp] at hv
  subst hv
  refine ⟨rfl, ?_⟩
  have hdir : (posixDirname (Vpath.make Platform.posix "/" VpathType.NORMAL st).filePath == "/")
      = true := rfl
  rw [getParent_posix env _ hp rfl, if_pos hdir, getRoot_posix env hp, hstat]
  exact ⟨Vpath.make Platform.posix "/" VpathType.OTHER_ROOT st, rfl, rfl, rfl⟩

/-- C1 witness: the amended claim evaluated in the concrete posix
environment. -/
theorem spec_c1_witness :
    Vpath.create envP "/" = some vRootN ∧
      (vRootN.isRoot = false ∧
        ∃ p, Vpath.getParent envP vRootN = some p ∧ p.filePath = "/" ∧ p.isRoot = true) :=
  ⟨rfl, spec_c1_create_slash envP vRootN rfl rfl⟩

/-- C2, as stated over any input path, is false on the code: create accepts
the relative path . (its stat succeeds), that instance is its own parent with
isRoot false, and getRoute never finishes (50 unfoldings are not enough and
the ascent is a self-loop). -/
theorem spec_c2_counterexample :
    (Vpath.create envP ".").bind (Vpath.getParent envP) = Vpath.create envP "." ∧
      (Vpath.create envP ".").map Vpath.isRoot = some false ∧
      (Vpath.create envP ".").bind (fun v => Vpath.getRoute envP 50 v) = none := by
  exact ⟨rfl, rfl, rfl⟩

/-- C2 (amended): on a single-root platform, for every instance whose path is
absolute, getRoute reaches a result in finitely many unfoldings (it resolves
or rejects), and whenever it resolves, the first element of the returned
sequence satisfies isRoot. -/
theorem spec_c2_route_terminates (env : Env) (v : Vpath)
    (hp : env.platform = Platform.posix) (habs : v.filePath.data.head? = some '/') :
    ∃ n r, Vpath.getRoute env n v = some r ∧
      ∀ l, r = some l → ∃ h t, l = h :: t ∧ h.isRoot = true := by
  obtain ⟨n, r, hnr⟩ := getRoute_total_aux env hp v.filePath.data.length v le_rfl habs
  refine ⟨n, r, hnr, ?_⟩
  intro l hl
  subst hl
  exact getRoute_head env n v l hnr

/-- C2 witness: the amended claim evaluated at the instance for /a in the
concrete posix environment. -/
theorem spec_c2_witness :
    envP.platform = Platform.posix ∧ vA.filePath.data.head? = some '/' ∧
      (∃ n r, Vpath.getRoute envP n vA = some r ∧
        ∀ l, r = some l → ∃ h t, l = h :: t ∧ h.isRoot = true) :=
  ⟨rfl, rfl, spec_c2_route_terminates envP vA rfl rfl⟩

/-- C3, as stated, is false on the code in one detail: the synthetic win32
root's path is the dot (the constructor normalizes the empty string, and
normalize of the empty string is the dot), not the empty string. -/
theorem spec_c3_counterexample :
    (Vpath.getRoot envW).map Vpath.filePath = some "." ∧
      (Vpath.getRoot envW).map Vpath.filePath ≠ some "" := by
  exact ⟨rfl, by decide⟩

/-- C3 (amended): on a multi-root system, getRoot returns a synthetic
WIN32_ROOT instance whose path is the dot (the normalization of the empty
string), whose isRoot is true, whose type flags are the fixed convention
not-file, is-directory, not-symlink, not-other, and it performs no metadata
lookup: the result does not depend on the stat or readdir collaborators. -/
theorem spec_c3_win_root (env : Env) (h : env.platform = Platform.win32) :
    ∃ r, Vpath.getRoot env = some r ∧ r.filePath = "." ∧ r.isRoot = true ∧
      r.isFile = false ∧ r.isDirectory = true ∧ r.isSymbolicLink = false ∧
      r.isOtherFileType = false ∧ r.vpathType = VpathType.WIN32_ROOT ∧
      ∀ st rd, Vpath.getRoot { env with stat := st, readdir := rd } = Vpath.getRoot env := by
  refine ⟨Vpath.make Platform.win32 "" VpathType.WIN32_ROOT ROOT_STATS,
    ?_, rfl, rfl, rfl, rfl, rfl, rfl, rfl, ?_⟩
  · unfold Vpath.getRoot
    rw [h]
  · intro st rd
    unfold Vpath.getRoot
    have hup : ({ env with stat := st, readdir := rd } : Env).platform = Platform.win32 := h
    rw [hup]

/-- C3 witness: the amended claim evaluated in the concrete win32
environment. -/
theorem spec_c3_witness :
    envW.platform = Platform.win32 ∧
      (∃ r, Vpath.getRoot envW = some r ∧ r.filePath = "." ∧ r.isRoot = true ∧
        r.isFile = false ∧ r.isDirectory = true ∧ r.isSymbolicLink = false ∧
        r.isOtherFileType = false ∧ r.vpathType = VpathType.WIN32_ROOT ∧
        ∀ st rd, Vpath.getRoot { envW with stat := st, readdir := rd } = Vpath.getRoot envW) :=
  ⟨rfl, spec_c3_win_root envW rfl⟩

/-- C4: the claim (and the source's own field documentation, Absolute path)
says every stored path is absolute, but the constructor only normalizes, so
create of the relative path a stores the relative path a.  This evaluates the
code at the failing input. -/
theorem spec_c4_relative_path_bug :
    Vpath.create envP "a" = some vRelA ∧ vRelA.filePath = "a" ∧
      vRelA.filePath.data.head? ≠ some '/' :=
  ⟨rfl, rfl, by decide⟩

/-- C5, as stated, is false on the code: the code strips only colons (not
separators) and filters on length exactly one (not on being a letter).  On
the stdout holding a line 1 and a line C followed by a backslash, the code
keeps the token 1 and drops C, while the spec's wording keeps C and drops 1;
the code then builds one child for 1. -/
theorem spec_c5_counterexample :
    winDriveTokens "1\r\nC\\" = ["1"] ∧ winDriveTokensSpec "1\r\nC\\" = ["C"] ∧
      (Vpath.getChildrenOfWin32Root envW1).map (List.map Vpath.filePath) = some ["1:"] := by
  exact ⟨rfl, rfl, rfl⟩

/-- C5 (amended): on the win32 root, each stdout line has its colons stripped
and is uppercased, lines whose resulting token does not have length exactly
one are filtered out (the token need not be a letter and separators are not
stripped), the survivors are sorted lexicographically ascending, and one
child is built per token via create (hence with its own metadata lookup),
each child having isRoot false and NORMAL kind. -/
theorem spec_c5_win_children (env : Env) (out : String) (l : List Vpath)
    (h1 : env.driveCmdOut = some out) (h2 : Vpath.getChildrenOfWin32Root env = some l) :
    (sortStrings (winDriveTokens out)).Pairwise (fun a b => jsStrLe a b = true) ∧
      l.length = (winDriveTokens out).length ∧
      ∀ c ∈ l, c.isRoot = false ∧ c.vpathType = VpathType.NORMAL ∧
        ∃ x ∈ sortStrings (winDriveTokens out), Vpath.create env (x ++ ":") = some c := by
  unfold Vpath.getChildrenOfWin32Root at h2
  rw [h1] at h2
  have h2' : promiseAll ((sortStrings (winDriveTokens out)).map
      (fun x => Vpath.create env (x ++ ":"))) = some l := h2
  refine ⟨sortStrings_pairwise _, ?_, ?_⟩
  · rw [promiseAll_length _ l h2', List.length_map, sortStrings_length]
  · intro c hc
    obtain ⟨x, hx, hcx⟩ := promiseAll_map_mem _ _ l h2' c hc
    obtain ⟨hr, ht, _⟩ := create_fields env (x ++ ":") c hcx
    exact ⟨hr, ht, x, hx, hcx⟩

/-- C5 witness: the amended claim evaluated in the concrete win32 environment
whose drive command reports c and C. -/
theorem spec_c5_witness :
    envW2.driveCmdOut = some "c:\nC:" ∧
      Vpath.getChildrenOfWin32Root envW2 = some [driveC, driveC] ∧
      ((sortStrings (winDriveTokens "c:\nC:")).Pairwise (fun a b => jsStrLe a b = true) ∧
        [driveC, driveC].length = (winDriveTokens "c:\nC:").length ∧
        ∀ c ∈ [driveC, driveC], c.isRoot = false ∧ c.vpathType = VpathType.NORMAL ∧
          ∃ x ∈ sortStrings (winDriveTokens "c:\nC:"),
            Vpath.create envW2 (x ++ ":") = some c) :=
  ⟨rfl, by decide, spec_c5_win_children envW2 "c:\nC:" [driveC, driveC] rfl (by decide)⟩

/-- C6: the route of a root is the one-element sequence holding only that
instance, and the route of a non-root instance is the parent's route with the
instance appended, whenever the parent and its route resolve. -/
theorem spec_c6_route_recurrence (env : Env) :
    (∀ (r : Vpath) (n : Nat), r.isRoot = true →
      Vpath.getRoute env (n + 1) r = some (some [r])) ∧
    (∀ (v p : Vpath) (lp : List Vpath) (n : Nat), v.isRoot = false →
      Vpath.getParent env v = some p →
      Vpath.getRoute env n p = some (some lp) →
      Vpath.getRoute env (n + 1) v = some (some (lp ++ [v]))) := by
  constructor
  · intro r n hr
    exact getRoute_succ_root env n r hr
  · intro v p lp n hv hpq hq
    rw [getRoute_succ_parent env n v p hv hpq, hq]

/-- C6 witness: the recurrence evaluated at the instance for /a and the posix
root in the concrete posix environment. -/
theorem spec_c6_witness :
    vA.isRoot = false ∧ Vpath.getParent envP vA = some rootP ∧
      Vpath.getRoute envP 1 rootP = some (some [rootP]) ∧
      Vpath.getRoute envP 2 vA = some (some ([rootP] ++ [vA])) :=
  ⟨rfl, rfl, (spec_c6_route_recurrence envP).1 rootP 0 rfl,
    (spec_c6_route_recurrence envP).2 vA rootP [rootP] 1 rfl rfl
      ((spec_c6_route_recurrence envP).1 rootP 0 rfl)⟩

/-- C7: every instance getRoot returns has isRoot true, every instance with
isRoot true is its own parent (getParent returns it unchanged, hence equal in
every field), and so getRoot's result is its own parent. -/
theorem spec_c7_root_self_parent (env : Env) :
    (∀ r, Vpath.getRoot env = some r → r.isRoot = true) ∧
    (∀ v, v.isRoot = true → Vpath.getParent env v = some v) ∧
    (∀ r, Vpath.getRoot env = some r → Vpath.getParent env r = some r) :=
  ⟨fun r h => getRoot_isRoot env r h,
    fun v hv => getParent_of_isRoot env v hv,
    fun r h => getParent_of_isRoot env r (getRoot_isRoot env r h)⟩

/-- C7 witness: evaluated at the posix root of the concrete posix
environment. -/
theorem spec_c7_witness :
    Vpath.getRoot envP = some rootP ∧ rootP.isRoot = true ∧
      Vpath.getParent envP rootP = some rootP :=
  ⟨rfl, (spec_c7_root_self_parent envP).1 rootP rfl,
    (spec_c7_root_self_parent envP).2.2 rootP rfl⟩

/-- C8: for every path string whose metadata lookup succeeds, the created
instance's path is the platform normalization of the input, and two inputs
with the same normalization yield instances with the same path. -/
theorem spec_c8_create_normalizes (env : Env) (p : String) (v : Vpath)
    (h : Vpath.create env p = some v) :
    v.filePath = pathNormalize env.platform p ∧
      ∀ q w, pathNormalize env.platform q = pathNormalize env.platform p →
        Vpath.create env q = some w → w.filePath = v.filePath := by
  obtain ⟨st, hstat, hv⟩ := (create_eq_some env p v).mp h
  subst hv
  refine ⟨rfl, ?_⟩
  intro q w heq hw
  obtain ⟨st2, hstat2, hw2⟩ := (create_eq_some env q w).mp hw
  subst hw2
  show pathNormalize env.platform q = pathNormalize env.platform p
  exact heq

/-- C8 witness: evaluated at /a and the equivalent spelling /./a in the
concrete posix environment. -/
theorem spec_c8_witness :
    Vpath.create envP "/a" = some vA ∧
      (vA.filePath = pathNormalize envP.platform "/a" ∧
        ∀ q w, pathNormalize envP.platform q = pathNormalize envP.platform "/a" →
          Vpath.create envP q = some w → w.filePath = vA.filePath) ∧
      (Vpath.create envP "/./a").map Vpath.filePath =
        (Vpath.create envP "/a").map Vpath.filePath :=
  ⟨rfl, spec_c8_create_normalizes envP "/a" vA rfl, rfl⟩

/-- C9: on a non-platform-root instance, a failing directory listing fails
the whole getChildren call, one failing child metadata lookup fails the whole
call (no partial sequence), and on a plain file (whose listing fails, as the
OS reports) the call fails rather than returning the empty sequence. -/
theorem spec_c9_children_allfail (env : Env) (v : Vpath)
    (h : v.vpathType ≠ VpathType.WIN32_ROOT) :
    (env.readdir v.filePath = none → Vpath.getChildren env v = none) ∧
    (∀ names, env.readdir v.filePath = some names →
      (∃ c ∈ names, env.stat (pathResolve env.platform env.cwd v.filePath c) = none) →
      Vpath.getChildren env v = none) ∧
    (v.isFile = true → env.readdir v.filePath = none →
      Vpath.getChildren env v ≠ some []) := by
  have key : Vpath.getChildren env v =
      (env.readdir v.filePath).bind (fun children =>
        promiseAll (children.map (fun child =>
          Vpath.create env (pathResolve env.platform env.cwd v.filePath child)))) := by
    unfold Vpath.getChildren
    cases ht : v.vpathType with
    | WIN32_ROOT => exact absurd ht h
    | NORMAL => rfl
    | OTHER_ROOT => rfl
  refine ⟨?_, ?_, ?_⟩
  · intro hrd
    rw [key, hrd]
    rfl
  · intro names hrd hex
    obtain ⟨c, hc, hstat⟩ := hex
    rw [key, hrd]
    have hcreate : Vpath.create env (pathResolve env.platform env.cwd v.filePath c) = none := by
      rw [create_platform, hstat]
      rfl
    exact promiseAll_map_none _ names c hc hcreate
  · intro _ hrd
    rw [key, hrd]
    simp

/-- C9 witness: evaluated at the plain file /a/b/c.txt (listing fails) and at
the directory /a/b one of whose entries vanishes before its lookup. -/
theorem spec_c9_witness :
    vFile.vpathType ≠ VpathType.WIN32_ROOT ∧
      Vpath.getChildren envP vFile = none ∧ Vpath.getChildren envP vDirB = none :=
  ⟨by decide, (spec_c9_children_allfail envP vFile (by decide)).1 rfl,
    (spec_c9_children_allfail envP vDirB (by decide)).2.1 ["c.txt", "ghost"] rfl
      ⟨"ghost", by decide, rfl⟩⟩

/-- C10: on the synthetic win32 root, no deduplication of drive letters is
performed: the number of children returned equals the number of stdout lines
whose colon-stripped, uppercased form has length exactly one, so a letter
reported twice (in any letter case) yields two children. -/
theorem spec_c10_no_dedup (env : Env) (out : String) (l : List Vpath)
    (h1 : env.driveCmdOut = some out) (h2 : Vpath.getChildrenOfWin32Root env = some l) :
    l.length = (splitLines out).countP (fun x => (jsToUpper (stripColons x)).length == 1) := by
  unfold Vpath.getChildrenOfWin32Root at h2
  rw [h1] at h2
  have h2' : promiseAll ((sortStrings (winDriveTokens out)).map
      (fun x => Vpath.create env (x ++ ":"))) = some l := h2
  rw [promiseAll_length _ l h2', List.length_map, sortStrings_length]
  unfold winDriveTokens
  rw [List.filter_map, List.length_map, List.countP_eq_length_filter]
  rfl

/-- C10 witness: the drive command reporting c and C yields two children for
the same drive letter. -/
theorem spec_c10_witness :
    envW2.driveCmdOut = some "c:\nC:" ∧
      Vpath.getChildrenOfWin32Root envW2 = some [driveC, driveC] ∧
      [driveC, driveC].length =
        (splitLines "c:\nC:").countP (fun x => (jsToUpper (stripColons x)).length == 1) :=
  ⟨rfl, by decide, spec_c10_no_dedup envW2 "c:\nC:" [driveC, driveC] rfl (by decide)⟩
